import Mathlib

/-!
Verification of the `MomentumMassElemKernel` element kernel (Nalu,
`src/MomentumMassElemKernel.C`).

The kernel is embedded shallowly over `ℚ` (exact arithmetic standing for the
C++ `double`s).  Field handles are an abstract type `α`; a scratch-view
collaborator resolves a handle to the gathered nodal data, mirroring
`scratchViews.get_scratch_view_1D/2D`.  The element-local residual (`rhs`)
and Jacobian (`lhs`) buffers are total functions on `ℕ` indices, and every
`+=` of the source is a `Function.update` that adds into the current entry,
folded in the source's loop order.
-/

namespace sierra
namespace nalu

/-- Compile-time element-topology parameters (`AlgTraits`): spatial
dimension, nodes per element and number of sub-control-volume integration
points. -/
structure AlgTraits where
  nDim_ : ℕ
  nodesPerElement_ : ℕ
  numScvIp_ : ℕ

/-- A time-leveled mesh field: its number of stored states and the handles
returned by `field_of_state` for StateNM1 / StateN / StateNP1. -/
structure FieldStates (α : Type) where
  numberOfStates : ℕ
  stateNM1 : α
  stateN : α
  stateNP1 : α

/-- The time-integrator collaborator: four scalar reads. -/
structure TimeIntegrator where
  timeStep : ℚ
  gamma1 : ℚ
  gamma2 : ℚ
  gamma3 : ℚ

def TimeIntegrator.get_time_step (t : TimeIntegrator) : ℚ := t.timeStep

def TimeIntegrator.get_gamma1 (t : TimeIntegrator) : ℚ := t.gamma1

def TimeIntegrator.get_gamma2 (t : TimeIntegrator) : ℚ := t.gamma2

def TimeIntegrator.get_gamma3 (t : TimeIntegrator) : ℚ := t.gamma3

/-- Kernel state: the lumped-mass flag, the ip-to-nearest-node map, the
shape-function table selected at construction, the resolved field handles,
and the per-step time coefficients written by `setup`. -/
structure MomentumMassElemKernel (α : Type) where
  lumpedMass_ : Bool
  ipNodeMap_ : ℕ → ℕ
  v_shape_function_ : ℕ → ℕ → ℚ
  velocityNm1_ : α
  velocityN_ : α
  velocityNp1_ : α
  densityNm1_ : α
  densityN_ : α
  densityNp1_ : α
  Gjp_ : α
  coordinates_ : α
  dt_ : ℚ
  gamma1_ : ℚ
  gamma2_ : ℚ
  gamma3_ : ℚ

/-- Constructor logic of `MomentumMassElemKernel` (lines 28–83): resolve the
three states of velocity and density with the two-state n−1 aliasing, resolve
`dpdx` and the coordinate field, and select the shifted (lumped) or standard
shape-function table.  The time-step coefficients are not set here (the C++
leaves them uninitialized until `setup`); we default them to 0. -/
def MomentumMassElemKernel.construct {α : Type}
    (velocity density : FieldStates α) (gjp coords : α)
    (lumpedMass : Bool) (ipNodeMap : ℕ → ℕ)
    (shiftedShapeFcn shapeFcn : ℕ → ℕ → ℚ) : MomentumMassElemKernel α :=
  { lumpedMass_ := lumpedMass
    ipNodeMap_ := ipNodeMap
    v_shape_function_ := if lumpedMass then shiftedShapeFcn else shapeFcn
    velocityN_ := velocity.stateN
    velocityNp1_ := velocity.stateNP1
    velocityNm1_ :=
      if velocity.numberOfStates = 2 then velocity.stateN else velocity.stateNM1
    densityN_ := density.stateN
    densityNp1_ := density.stateNP1
    densityNm1_ :=
      if density.numberOfStates = 2 then density.stateN else density.stateNM1
    Gjp_ := gjp
    coordinates_ := coords
    dt_ := 0
    gamma1_ := 0
    gamma2_ := 0
    gamma3_ := 0 }

/-- `setup` (lines 89–97): copy the step size and the three blending
coefficients out of the time integrator into kernel-local state. -/
def MomentumMassElemKernel.setup {α : Type} (k : MomentumMassElemKernel α)
    (timeIntegrator : TimeIntegrator) : MomentumMassElemKernel α :=
  { k with
    dt_ := timeIntegrator.get_time_step
    gamma1_ := timeIntegrator.get_gamma1
    gamma2_ := timeIntegrator.get_gamma2
    gamma3_ := timeIntegrator.get_gamma3 }

/-- The per-element scratch context: resolves a field handle to gathered
1-component nodal values (`ℕ → ℚ`, indexed by local node) or multi-component
nodal values (`ℕ → ℕ → ℚ`, node then component), and holds the
sub-control-volume measures indexed by integration point. -/
structure ScratchViews (α : Type) where
  get_scratch_view_1D : α → ℕ → ℚ
  get_scratch_view_2D : α → ℕ → ℕ → ℚ
  scv_volume : ℕ → ℚ

/-- Caller-owned element residual (`rhs`) and Jacobian (`lhs`) buffers. -/
@[ext]
structure ElemBuffers where
  lhs : ℕ → ℕ → ℚ
  rhs : ℕ → ℚ

/-- The interpolation loop of `execute` (lines 130–142): starting from 0,
accumulate `shape(ip, ic) * value(ic)` over local nodes in ascending order.
The source runs one `ic` loop accumulating all quantities at once; the
accumulators are independent, so each is this fold. -/
def gatherInterp (shape : ℕ → ℕ → ℚ) (nodesPerElement ip : ℕ)
    (vals : ℕ → ℚ) : ℚ :=
  (List.range nodesPerElement).foldl
    (fun acc ic => acc + shape ip ic * vals ic) 0

/-- The residual loop of `execute` (lines 147–153): for each dimension `j`
in ascending order, add `contrib j` into the residual entry `nnNdim + j`. -/
def rhsAccumulate (nDim nnNdim : ℕ) (contrib : ℕ → ℚ) (r : ℕ → ℚ) : ℕ → ℚ :=
  (List.range nDim).foldl
    (fun r2 j => Function.update r2 (nnNdim + j) (r2 (nnNdim + j) + contrib j)) r

/-- The inner Jacobian loop of `execute` (lines 161–164): for each dimension
`j`, add `lhsfac` into the Jacobian entry at row `nnNdim + j`, column
`icNdim + j`. -/
def lhsAccumulateIc (nDim nnNdim icNdim : ℕ) (lhsfac : ℚ)
    (m : ℕ → ℕ → ℚ) : ℕ → ℕ → ℚ :=
  (List.range nDim).foldl
    (fun (m2 : ℕ → ℕ → ℚ) j =>
      Function.update m2 (nnNdim + j)
        (Function.update (m2 (nnNdim + j)) (icNdim + j)
          (m2 (nnNdim + j) (icNdim + j) + lhsfac))) m

/-- The outer Jacobian loop of `execute` (lines 156–165): for each local node
`ic` in ascending order, run the inner dimension loop with that node's
`lhsfac`. -/
def lhsAccumulate (nodesPerElement nDim nnNdim : ℕ) (facOf : ℕ → ℚ)
    (m : ℕ → ℕ → ℚ) : ℕ → ℕ → ℚ :=
  (List.range nodesPerElement).foldl
    (fun (m1 : ℕ → ℕ → ℚ) ic =>
      lhsAccumulateIc nDim nnNdim (ic * nDim) (facOf ic) m1) m

/-- Body of one integration point of `execute` (lines 117–166): interpolate
the time-leveled densities and velocities and the pressure gradient, then
accumulate the residual at the nearest node's entries and the Jacobian at the
(nearestNode, ic) block diagonal. -/
def executeIp {α : Type} (T : AlgTraits) (k : MomentumMassElemKernel α)
    (scratchViews : ScratchViews α) (ip : ℕ) (B : ElemBuffers) : ElemBuffers :=
  let v_densityNm1 := scratchViews.get_scratch_view_1D k.densityNm1_
  let v_densityN := scratchViews.get_scratch_view_1D k.densityN_
  let v_densityNp1 := scratchViews.get_scratch_view_1D k.densityNp1_
  let v_velocityNm1 := scratchViews.get_scratch_view_2D k.velocityNm1_
  let v_velocityN := scratchViews.get_scratch_view_2D k.velocityN_
  let v_velocityNp1 := scratchViews.get_scratch_view_2D k.velocityNp1_
  let v_Gpdx := scratchViews.get_scratch_view_2D k.Gjp_
  let nearestNode := k.ipNodeMap_ ip
  let rhoNm1 := gatherInterp k.v_shape_function_ T.nodesPerElement_ ip v_densityNm1
  let rhoN := gatherInterp k.v_shape_function_ T.nodesPerElement_ ip v_densityN
  let rhoNp1 := gatherInterp k.v_shape_function_ T.nodesPerElement_ ip v_densityNp1
  let v_uNm1 := fun j =>
    gatherInterp k.v_shape_function_ T.nodesPerElement_ ip (fun ic => v_velocityNm1 ic j)
  let v_uN := fun j =>
    gatherInterp k.v_shape_function_ T.nodesPerElement_ ip (fun ic => v_velocityN ic j)
  let v_uNp1 := fun j =>
    gatherInterp k.v_shape_function_ T.nodesPerElement_ ip (fun ic => v_velocityNp1 ic j)
  let v_Gjp := fun j =>
    gatherInterp k.v_shape_function_ T.nodesPerElement_ ip (fun ic => v_Gpdx ic j)
  let scV := scratchViews.scv_volume ip
  let nnNdim := nearestNode * T.nDim_
  let rhs1 := rhsAccumulate T.nDim_ nnNdim
    (fun j =>
      - (k.gamma1_ * rhoNp1 * v_uNp1 j +
         k.gamma2_ * rhoN * v_uN j +
         k.gamma3_ * rhoNm1 * v_uNm1 j) * scV / k.dt_
      - v_Gjp j * scV) B.rhs
  let lhs1 := lhsAccumulate T.nodesPerElement_ T.nDim_ nnNdim
    (fun ic => k.v_shape_function_ ip ic * k.gamma1_ * rhoNp1 * scV / k.dt_)
    B.lhs
  { lhs := lhs1, rhs := rhs1 }

/-- `execute` (lines 101–167): run the integration-point loop in ascending
order over the element's sub-control-volume integration points. -/
def MomentumMassElemKernel.execute {α : Type} (T : AlgTraits)
    (k : MomentumMassElemKernel α) (scratchViews : ScratchViews α)
    (B : ElemBuffers) : ElemBuffers :=
  (List.range T.numScvIp_).foldl (fun acc ip => executeIp T k scratchViews ip acc) B

/-! ### Specification-side quantities

These definitions follow the spec's wording (shape-function-weighted
interpolation as a sum over local nodes, and the per-integration-point
residual/Jacobian contributions); the theorems below compare `execute`
against them. -/

/-- Spec-side interpolation of a 1-component field at integration point
`ip`: the shape-function-weighted sum of the gathered nodal values. -/
def specInterp1 {α : Type} (sv : ScratchViews α) (shape : ℕ → ℕ → ℚ)
    (nodesPerElement ip : ℕ) (f : α) : ℚ :=
  ∑ ic ∈ Finset.range nodesPerElement, shape ip ic * sv.get_scratch_view_1D f ic

/-- Spec-side interpolation of component `j` of a multi-component field at
integration point `ip`. -/
def specInterp2 {α : Type} (sv : ScratchViews α) (shape : ℕ → ℕ → ℚ)
    (nodesPerElement ip : ℕ) (f : α) (j : ℕ) : ℚ :=
  ∑ ic ∈ Finset.range nodesPerElement, shape ip ic * sv.get_scratch_view_2D f ic j

/-- The quantity the spec says is subtracted from the residual entry
`(nearestNode, j)` at integration point `ip`:
`(γ1·ρ_{n+1}·u_{n+1,j} + γ2·ρ_n·u_{n,j} + γ3·ρ_{n-1}·u_{n-1,j})·scV/dt + Gjp_j·scV`. -/
def specMassTerm {α : Type} (T : AlgTraits) (k : MomentumMassElemKernel α)
    (sv : ScratchViews α) (ip j : ℕ) : ℚ :=
  (k.gamma1_ * specInterp1 sv k.v_shape_function_ T.nodesPerElement_ ip k.densityNp1_ *
      specInterp2 sv k.v_shape_function_ T.nodesPerElement_ ip k.velocityNp1_ j +
   k.gamma2_ * specInterp1 sv k.v_shape_function_ T.nodesPerElement_ ip k.densityN_ *
      specInterp2 sv k.v_shape_function_ T.nodesPerElement_ ip k.velocityN_ j +
   k.gamma3_ * specInterp1 sv k.v_shape_function_ T.nodesPerElement_ ip k.densityNm1_ *
      specInterp2 sv k.v_shape_function_ T.nodesPerElement_ ip k.velocityNm1_ j) *
    sv.scv_volume ip / k.dt_ +
  specInterp2 sv k.v_shape_function_ T.nodesPerElement_ ip k.Gjp_ j * sv.scv_volume ip

/-- The quantity the spec says is added to the Jacobian entry at row
`(nearestNode, j)`, column `(ic, j)`: `weight(ip, ic)·γ1·ρ_{n+1}·scV/dt`. -/
def specLhsFac {α : Type} (T : AlgTraits) (k : MomentumMassElemKernel α)
    (sv : ScratchViews α) (ip ic : ℕ) : ℚ :=
  k.v_shape_function_ ip ic * k.gamma1_ *
    specInterp1 sv k.v_shape_function_ T.nodesPerElement_ ip k.densityNp1_ *
    sv.scv_volume ip / k.dt_

/-- Total amount integration point `ip` subtracts from residual entry `i`. -/
def specRhsDelta {α : Type} (T : AlgTraits) (k : MomentumMassElemKernel α)
    (sv : ScratchViews α) (ip i : ℕ) : ℚ :=
  ∑ j ∈ Finset.range T.nDim_,
    if k.ipNodeMap_ ip * T.nDim_ + j = i then specMassTerm T k sv ip j else 0

/-- Total amount integration point `ip` adds to Jacobian entry `(i, c)`. -/
def specLhsDelta {α : Type} (T : AlgTraits) (k : MomentumMassElemKernel α)
    (sv : ScratchViews α) (ip i c : ℕ) : ℚ :=
  ∑ ic ∈ Finset.range T.nodesPerElement_, ∑ j ∈ Finset.range T.nDim_,
    if k.ipNodeMap_ ip * T.nDim_ + j = i ∧ ic * T.nDim_ + j = c
    then specLhsFac T k sv ip ic else 0

/-! ### Infrastructure lemmas -/

lemma listRangeMapSum (f : ℕ → ℚ) (n : ℕ) :
    ((List.range n).map f).sum = ∑ j ∈ Finset.range n, f j := by
  induction n with
  | zero => simp
  | succ m ih =>
      rw [List.range_succ, List.map_append, List.sum_append, ih,
        Finset.sum_range_succ]
      simp

lemma foldl_range_add (f : ℕ → ℚ) (n : ℕ) (a : ℚ) :
    (List.range n).foldl (fun x i => x + f i) a = a + ∑ i ∈ Finset.range n, f i := by
  induction n with
  | zero => simp
  | succ m ih =>
      rw [List.range_succ, List.foldl_append, ih, Finset.sum_range_succ]
      simp only [List.foldl_cons, List.foldl_nil]
      ring

lemma gatherInterp_eq_sum (shape : ℕ → ℕ → ℚ) (n ip : ℕ) (vals : ℕ → ℚ) :
    gatherInterp shape n ip vals = ∑ ic ∈ Finset.range n, shape ip ic * vals ic := by
  simpa using foldl_range_add (fun ic => shape ip ic * vals ic) n 0

lemma gatherInterp_1D {α : Type} (sv : ScratchViews α) (shape : ℕ → ℕ → ℚ)
    (n ip : ℕ) (f : α) :
    gatherInterp shape n ip (sv.get_scratch_view_1D f) = specInterp1 sv shape n ip f :=
  gatherInterp_eq_sum shape n ip (sv.get_scratch_view_1D f)

lemma gatherInterp_2D {α : Type} (sv : ScratchViews α) (shape : ℕ → ℕ → ℚ)
    (n ip : ℕ) (f : α) (j : ℕ) :
    gatherInterp shape n ip (fun ic => sv.get_scratch_view_2D f ic j)
      = specInterp2 sv shape n ip f j :=
  gatherInterp_eq_sum shape n ip (fun ic => sv.get_scratch_view_2D f ic j)

lemma foldl_pointwise1 {ι : Type} (body : (ℕ → ℚ) → ι → (ℕ → ℚ))
    (D : ι → ℕ → ℚ) (hbody : ∀ g x i, body g x i = g i + D x i)
    (l : List ι) (g : ℕ → ℚ) (i : ℕ) :
    l.foldl body g i = g i + (l.map fun x => D x i).sum := by
  induction l generalizing g with
  | nil => simp
  | cons a t ih =>
      simp only [List.foldl_cons, List.map_cons, List.sum_cons]
      rw [ih, hbody]
      ring

lemma foldl_pointwise2 {ι : Type} (body : (ℕ → ℕ → ℚ) → ι → (ℕ → ℕ → ℚ))
    (D : ι → ℕ → ℕ → ℚ) (hbody : ∀ g x i c, body g x i c = g i c + D x i c)
    (l : List ι) (g : ℕ → ℕ → ℚ) (i c : ℕ) :
    l.foldl body g i c = g i c + (l.map fun x => D x i c).sum := by
  induction l generalizing g with
  | nil => simp
  | cons a t ih =>
      simp only [List.foldl_cons, List.map_cons, List.sum_cons]
      rw [ih, hbody]
      ring

lemma update_add_apply (r : ℕ → ℚ) (idx : ℕ) (v : ℚ) (i : ℕ) :
    Function.update r idx (r idx + v) i = r i + if idx = i then v else 0 := by
  rcases eq_or_ne i idx with h | h
  · subst h; simp
  · rw [Function.update_noteq h, if_neg (Ne.symm h), add_zero]

lemma update2_add_apply (m : ℕ → ℕ → ℚ) (ri ci : ℕ) (v : ℚ) (i c : ℕ) :
    Function.update m ri (Function.update (m ri) ci (m ri ci + v)) i c
      = m i c + if ri = i ∧ ci = c then v else 0 := by
  rcases eq_or_ne i ri with h | h
  · subst h
    rw [Function.update_same]
    rcases eq_or_ne c ci with h2 | h2
    · subst h2; simp
    · rw [Function.update_noteq h2, if_neg, add_zero]
      rintro ⟨-, h3⟩
      exact h2 h3.symm
  · rw [Function.update_noteq h, if_neg, add_zero]
    rintro ⟨h3, -⟩
    exact h h3.symm

lemma rhsAccumulate_apply (nDim nnNdim : ℕ) (contrib : ℕ → ℚ) (r : ℕ → ℚ)
    (i : ℕ) :
    rhsAccumulate nDim nnNdim contrib r i
      = r i + ∑ j ∈ Finset.range nDim, if nnNdim + j = i then contrib j else 0 := by
  rw [rhsAccumulate,
    foldl_pointwise1 _ (fun j i2 => if nnNdim + j = i2 then contrib j else 0)
      (fun g x i2 => update_add_apply g (nnNdim + x) (contrib x) i2)
      (List.range nDim) r i,
    listRangeMapSum]

lemma lhsAccumulateIc_apply (nDim nnNdim icNdim : ℕ) (fac : ℚ)
    (m : ℕ → ℕ → ℚ) (i c : ℕ) :
    lhsAccumulateIc nDim nnNdim icNdim fac m i c
      = m i c + ∑ j ∈ Finset.range nDim,
          if nnNdim + j = i ∧ icNdim + j = c then fac else 0 := by
  rw [lhsAccumulateIc,
    foldl_pointwise2 _
      (fun j i2 c2 => if nnNdim + j = i2 ∧ icNdim + j = c2 then fac else 0)
      (fun g x i2 c2 => update2_add_apply g (nnNdim + x) (icNdim + x) fac i2 c2)
      (List.range nDim) m i c,
    listRangeMapSum]

lemma lhsAccumulate_apply (nodesPerElement nDim nnNdim : ℕ) (facOf : ℕ → ℚ)
    (m : ℕ → ℕ → ℚ) (i c : ℕ) :
    lhsAccumulate nodesPerElement nDim nnNdim facOf m i c
      = m i c + ∑ ic ∈ Finset.range nodesPerElement, ∑ j ∈ Finset.range nDim,
          if nnNdim + j = i ∧ ic * nDim + j = c then facOf ic else 0 := by
  rw [lhsAccumulate,
    foldl_pointwise2 _
      (fun ic i2 c2 => ∑ j ∈ Finset.range nDim,
        if nnNdim + j = i2 ∧ ic * nDim + j = c2 then facOf ic else 0)
      (fun g x i2 c2 => lhsAccumulateIc_apply nDim nnNdim (x * nDim) (facOf x) g i2 c2)
      (List.range nodesPerElement) m i c,
    listRangeMapSum]

lemma executeIp_rhs_apply {α : Type} (T : AlgTraits)
    (k : MomentumMassElemKernel α) (sv : ScratchViews α) (ip : ℕ)
    (B : ElemBuffers) (i : ℕ) :
    (executeIp T k sv ip B).rhs i = B.rhs i - specRhsDelta T k sv ip i := by
  simp only [executeIp]
  rw [rhsAccumulate_apply]
  unfold specRhsDelta
  rw [sub_eq_add_neg, ← Finset.sum_neg_distrib]
  congr 1
  refine Finset.sum_congr rfl fun j _ => ?_
  split_ifs with h
  · simp only [gatherInterp_1D, gatherInterp_2D, specMassTerm]
    ring
  · ring

lemma executeIp_lhs_apply {α : Type} (T : AlgTraits)
    (k : MomentumMassElemKernel α) (sv : ScratchViews α) (ip : ℕ)
    (B : ElemBuffers) (i c : ℕ) :
    (executeIp T k sv ip B).lhs i c = B.lhs i c + specLhsDelta T k sv ip i c := by
  simp only [executeIp]
  rw [lhsAccumulate_apply]
  unfold specLhsDelta
  congr 1
  refine Finset.sum_congr rfl fun ic _ => Finset.sum_congr rfl fun j _ => ?_
  split_ifs with h
  · simp only [gatherInterp_1D, specLhsFac]
  · rfl

lemma execute_fold_apply {α : Type} (T : AlgTraits)
    (k : MomentumMassElemKernel α) (sv : ScratchViews α) (l : List ℕ) :
    ∀ B : ElemBuffers,
      (∀ i, (l.foldl (fun acc ip => executeIp T k sv ip acc) B).rhs i
          = B.rhs i - (l.map fun ip => specRhsDelta T k sv ip i).sum)
      ∧ (∀ i c, (l.foldl (fun acc ip => executeIp T k sv ip acc) B).lhs i c
          = B.lhs i c + (l.map fun ip => specLhsDelta T k sv ip i c).sum) := by
  induction l with
  | nil => intro B; simp
  | cons a t ih =>
      intro B
      constructor
      · intro i
        simp only [List.foldl_cons, List.map_cons, List.sum_cons]
        rw [(ih (executeIp T k sv a B)).1 i, executeIp_rhs_apply]
        ring
      · intro i c
        simp only [List.foldl_cons, List.map_cons, List.sum_cons]
        rw [(ih (executeIp T k sv a B)).2 i c, executeIp_lhs_apply]
        ring

lemma execute_rhs_apply {α : Type} (T : AlgTraits)
    (k : MomentumMassElemKernel α) (sv : ScratchViews α) (B : ElemBuffers)
    (i : ℕ) :
    (MomentumMassElemKernel.execute T k sv B).rhs i
      = B.rhs i - ∑ ip ∈ Finset.range T.numScvIp_, specRhsDelta T k sv ip i := by
  rw [MomentumMassElemKernel.execute,
    (execute_fold_apply T k sv (List.range T.numScvIp_) B).1 i, listRangeMapSum]

lemma execute_lhs_apply {α : Type} (T : AlgTraits)
    (k : MomentumMassElemKernel α) (sv : ScratchViews α) (B : ElemBuffers)
    (i c : ℕ) :
    (MomentumMassElemKernel.execute T k sv B).lhs i c
      = B.lhs i c + ∑ ip ∈ Finset.range T.numScvIp_, specLhsDelta T k sv ip i c := by
  rw [MomentumMassElemKernel.execute,
    (execute_fold_apply T k sv (List.range T.numScvIp_) B).2 i c, listRangeMapSum]

/-- Zero-initialized element buffers (as the caller provides them). -/
def zeroBuffers : ElemBuffers := { lhs := fun _ _ => 0, rhs := fun _ => 0 }

/-! ### Concrete instances used by witnesses -/

def T0 : AlgTraits := { nDim_ := 2, nodesPerElement_ := 2, numScvIp_ := 2 }

def k0 : MomentumMassElemKernel ℕ :=
  { lumpedMass_ := false
    ipNodeMap_ := fun ip => ip
    v_shape_function_ := fun _ _ => 1/2
    velocityNm1_ := 0
    velocityN_ := 1
    velocityNp1_ := 2
    densityNm1_ := 3
    densityN_ := 4
    densityNp1_ := 5
    Gjp_ := 6
    coordinates_ := 7
    dt_ := 1/10
    gamma1_ := 1
    gamma2_ := 1/2
    gamma3_ := 1/3 }

def sv0 : ScratchViews ℕ :=
  { get_scratch_view_1D := fun f ic => (f : ℚ) + ic
    get_scratch_view_2D := fun f ic j => (f : ℚ) + ic + j
    scv_volume := fun ip => (ip : ℚ) + 1 }

def B0 : ElemBuffers := { lhs := fun i c => (i : ℚ) + c, rhs := fun i => (i : ℚ) }

/-! ### Claims -/

/-- C1: for every element evaluation, for each integration point `ip` and
each spatial dimension `j`, `execute` subtracts from the residual entry at
`(nearestNode, j)` exactly
`(γ1·ρ_{n+1}·u_{n+1,j} + γ2·ρ_n·u_{n,j} + γ3·ρ_{n-1}·u_{n-1,j})·scV/dt + Gjp_j·scV`,
where the ρ, u and Gjp values at `ip` are the shape-function-weighted
interpolations of the gathered nodal values, `scV` is the sub-control-volume
measure at `ip`, and `nearestNode` is the owning-node map entry for `ip`. -/
theorem C1_residual_subtraction {α : Type} (T : AlgTraits)
    (k : MomentumMassElemKernel α) (sv : ScratchViews α) (B : ElemBuffers)
    (i : ℕ) :
    (MomentumMassElemKernel.execute T k sv B).rhs i
      = B.rhs i - ∑ ip ∈ Finset.range T.numScvIp_, ∑ j ∈ Finset.range T.nDim_,
          if k.ipNodeMap_ ip * T.nDim_ + j = i then specMassTerm T k sv ip j else 0 := by
  rw [execute_rhs_apply]
  simp only [specRhsDelta]

/-- C2: for every element evaluation, for each integration point `ip`, local
node `ic` and dimension `j`, `execute` adds exactly
`weight(ip, ic)·γ1·ρ_{n+1}·scV/dt` to the Jacobian entry at row
`(nearestNode, j)`, column `(ic, j)`, and adds nothing to any entry whose row
dimension index differs from its column dimension index (block-diagonal in
the dimension index; only the interpolated n+1 density enters). -/
theorem C2_jacobian_block_diagonal {α : Type} (T : AlgTraits)
    (k : MomentumMassElemKernel α) (sv : ScratchViews α) (B : ElemBuffers) :
    (∀ i c, (MomentumMassElemKernel.execute T k sv B).lhs i c
        = B.lhs i c + ∑ ip ∈ Finset.range T.numScvIp_,
            ∑ ic ∈ Finset.range T.nodesPerElement_, ∑ j ∈ Finset.range T.nDim_,
              if k.ipNodeMap_ ip * T.nDim_ + j = i ∧ ic * T.nDim_ + j = c
              then k.v_shape_function_ ip ic * k.gamma1_ *
                specInterp1 sv k.v_shape_function_ T.nodesPerElement_ ip k.densityNp1_ *
                sv.scv_volume ip / k.dt_
              else 0)
    ∧ (∀ i c, i % T.nDim_ ≠ c % T.nDim_ →
        (MomentumMassElemKernel.execute T k sv B).lhs i c = B.lhs i c) := by
  constructor
  · intro i c
    rw [execute_lhs_apply]
    simp only [specLhsDelta, specLhsFac]
  · intro i c h
    rw [execute_lhs_apply]
    have hz : ∑ ip ∈ Finset.range T.numScvIp_, specLhsDelta T k sv ip i c = 0 := by
      refine Finset.sum_eq_zero fun ip _ => ?_
      simp only [specLhsDelta]
      refine Finset.sum_eq_zero fun ic _ => ?_
      refine Finset.sum_eq_zero fun j _ => ?_
      rw [if_neg]
      rintro ⟨h1, h2⟩
      apply h
      rw [← h1, ← h2, Nat.mul_comm (k.ipNodeMap_ ip) T.nDim_,
        Nat.mul_comm ic T.nDim_, Nat.mul_add_mod, Nat.mul_add_mod]
    rw [hz, add_zero]

/-- C2 witness: for a concrete kernel, an off-block-diagonal Jacobian entry
(row dimension 0, column dimension 1) is left unchanged. -/
theorem C2_jacobian_block_diagonal_witness :
    (MomentumMassElemKernel.execute T0 k0 sv0 B0).lhs 0 1 = B0.lhs 0 1 :=
  (C2_jacobian_block_diagonal T0 k0 sv0 B0).2 0 1 (by decide)

/-- C6: accumulate-only output contract — for every initial buffer content,
`execute` leaves each buffer equal to its initial content plus the kernel's
own contribution (the contribution computed on zeroed buffers), which is
independent of the buffers' prior contents. -/
theorem C6_accumulate_only {α : Type} (T : AlgTraits)
    (k : MomentumMassElemKernel α) (sv : ScratchViews α) (B : ElemBuffers) :
    (∀ i, (MomentumMassElemKernel.execute T k sv B).rhs i
        = B.rhs i + (MomentumMassElemKernel.execute T k sv zeroBuffers).rhs i)
    ∧ (∀ i c, (MomentumMassElemKernel.execute T k sv B).lhs i c
        = B.lhs i c + (MomentumMassElemKernel.execute T k sv zeroBuffers).lhs i c) := by
  constructor
  · intro i
    rw [execute_rhs_apply, execute_rhs_apply]
    simp [zeroBuffers, sub_eq_add_neg]
  · intro i c
    rw [execute_lhs_apply, execute_lhs_apply]
    simp [zeroBuffers]

/-- C7: determinism of repeated evaluation — two invocations of `execute`
with equal scratch contexts, equal kernel state and freshly zeroed buffers
produce identical residual and Jacobian contents. -/
theorem C7_determinism {α : Type} (T T' : AlgTraits)
    (k k' : MomentumMassElemKernel α) (sv sv' : ScratchViews α)
    (hT : T = T') (hk : k = k') (hsv : sv = sv') :
    MomentumMassElemKernel.execute T k sv zeroBuffers
      = MomentumMassElemKernel.execute T' k' sv' zeroBuffers := by
  subst hT; subst hk; subst hsv; rfl

/-- C7 witness: the determinism theorem applied to a concrete evaluation. -/
theorem C7_determinism_witness :
    MomentumMassElemKernel.execute T0 k0 sv0 zeroBuffers
      = MomentumMassElemKernel.execute T0 k0 sv0 zeroBuffers :=
  C7_determinism T0 T0 k0 k0 sv0 sv0 rfl rfl rfl

lemma specInterp1_const {α : Type} (sv : ScratchViews α) (shape : ℕ → ℕ → ℚ)
    (n ip : ℕ) (f : α) (v : ℚ)
    (h : ∀ ic < n, sv.get_scratch_view_1D f ic = v)
    (hrow : ∑ ic ∈ Finset.range n, shape ip ic = 1) :
    specInterp1 sv shape n ip f = v := by
  have h2 : ∀ ic ∈ Finset.range n,
      shape ip ic * sv.get_scratch_view_1D f ic = shape ip ic * v :=
    fun ic hic => by rw [h ic (Finset.mem_range.mp hic)]
  rw [specInterp1, Finset.sum_congr rfl h2, ← Finset.sum_mul, hrow, one_mul]

lemma specInterp2_const {α : Type} (sv : ScratchViews α) (shape : ℕ → ℕ → ℚ)
    (n ip : ℕ) (f : α) (j : ℕ) (v : ℚ)
    (h : ∀ ic < n, sv.get_scratch_view_2D f ic j = v)
    (hrow : ∑ ic ∈ Finset.range n, shape ip ic = 1) :
    specInterp2 sv shape n ip f j = v := by
  have h2 : ∀ ic ∈ Finset.range n,
      shape ip ic * sv.get_scratch_view_2D f ic j = shape ip ic * v :=
    fun ic hic => by rw [h ic (Finset.mem_range.mp hic)]
  rw [specInterp2, Finset.sum_congr rfl h2, ← Finset.sum_mul, hrow, one_mul]

/-- Scratch context with uniform density 2 and velocity component `j ↦ j`,
used by the C3 witness. -/
def sv3 : ScratchViews ℕ :=
  { get_scratch_view_1D := fun _ _ => 2
    get_scratch_view_2D := fun _ _ j => (j : ℚ)
    scv_volume := fun ip => (ip : ℚ) + 1 }

/-- C3: for an element whose gathered density is the constant `v` and whose
gathered velocity is the constant vector `u` at every node and time level,
if every shape-function weight row sums to 1, then each integration point's
residual contribution at its nearest node's dimension-`j` entry is
`−(γ1+γ2+γ3)·v·u_j·scV/dt − Gjp_j·scV`. -/
theorem C3_uniform_fields {α : Type} (T : AlgTraits)
    (k : MomentumMassElemKernel α) (sv : ScratchViews α) (B : ElemBuffers)
    (v : ℚ) (u : ℕ → ℚ)
    (hd1 : ∀ ic < T.nodesPerElement_, sv.get_scratch_view_1D k.densityNm1_ ic = v)
    (hd2 : ∀ ic < T.nodesPerElement_, sv.get_scratch_view_1D k.densityN_ ic = v)
    (hd3 : ∀ ic < T.nodesPerElement_, sv.get_scratch_view_1D k.densityNp1_ ic = v)
    (hv1 : ∀ ic < T.nodesPerElement_, ∀ j,
      sv.get_scratch_view_2D k.velocityNm1_ ic j = u j)
    (hv2 : ∀ ic < T.nodesPerElement_, ∀ j,
      sv.get_scratch_view_2D k.velocityN_ ic j = u j)
    (hv3 : ∀ ic < T.nodesPerElement_, ∀ j,
      sv.get_scratch_view_2D k.velocityNp1_ ic j = u j)
    (hrow : ∀ ip < T.numScvIp_,
      ∑ ic ∈ Finset.range T.nodesPerElement_, k.v_shape_function_ ip ic = 1)
    (i : ℕ) :
    (MomentumMassElemKernel.execute T k sv B).rhs i
      = B.rhs i + ∑ ip ∈ Finset.range T.numScvIp_, ∑ j ∈ Finset.range T.nDim_,
          if k.ipNodeMap_ ip * T.nDim_ + j = i
          then - (k.gamma1_ + k.gamma2_ + k.gamma3_) * v * u j * sv.scv_volume ip / k.dt_
               - specInterp2 sv k.v_shape_function_ T.nodesPerElement_ ip k.Gjp_ j *
                   sv.scv_volume ip
          else 0 := by
  rw [execute_rhs_apply, sub_eq_add_neg, ← Finset.sum_neg_distrib]
  congr 1
  refine Finset.sum_congr rfl fun ip hip => ?_
  have hip2 := Finset.mem_range.mp hip
  simp only [specRhsDelta]
  rw [← Finset.sum_neg_distrib]
  refine Finset.sum_congr rfl fun j _ => ?_
  split_ifs with hcond
  · have e1 := specInterp1_const sv k.v_shape_function_ T.nodesPerElement_ ip
      k.densityNm1_ v hd1 (hrow ip hip2)
    have e2 := specInterp1_const sv k.v_shape_function_ T.nodesPerElement_ ip
      k.densityN_ v hd2 (hrow ip hip2)
    have e3 := specInterp1_const sv k.v_shape_function_ T.nodesPerElement_ ip
      k.densityNp1_ v hd3 (hrow ip hip2)
    have f1 := specInterp2_const sv k.v_shape_function_ T.nodesPerElement_ ip
      k.velocityNm1_ j (u j) (fun ic hic => hv1 ic hic j) (hrow ip hip2)
    have f2 := specInterp2_const sv k.v_shape_function_ T.nodesPerElement_ ip
      k.velocityN_ j (u j) (fun ic hic => hv2 ic hic j) (hrow ip hip2)
    have f3 := specInterp2_const sv k.v_shape_function_ T.nodesPerElement_ ip
      k.velocityNp1_ j (u j) (fun ic hic => hv3 ic hic j) (hrow ip hip2)
    simp only [specMassTerm, e1, e2, e3, f1, f2, f3]
    ring
  · rw [neg_zero]

/-- C3 witness: the uniform-field theorem applied to a concrete element with
density 2, velocity `j ↦ j` and shape-function rows summing to 1. -/
theorem C3_uniform_fields_witness :
    (MomentumMassElemKernel.execute T0 k0 sv3 B0).rhs 0
      = B0.rhs 0 + ∑ ip ∈ Finset.range T0.numScvIp_, ∑ j ∈ Finset.range T0.nDim_,
          if k0.ipNodeMap_ ip * T0.nDim_ + j = 0
          then - (k0.gamma1_ + k0.gamma2_ + k0.gamma3_) * 2 * (j : ℚ) * sv3.scv_volume ip / k0.dt_
               - specInterp2 sv3 k0.v_shape_function_ T0.nodesPerElement_ ip k0.Gjp_ j *
                   sv3.scv_volume ip
          else 0 :=
  C3_uniform_fields T0 k0 sv3 B0 2 (fun j => (j : ℚ))
    (fun _ _ => rfl) (fun _ _ => rfl) (fun _ _ => rfl)
    (fun _ _ _ => rfl) (fun _ _ _ => rfl) (fun _ _ _ => rfl)
    (by intro ip _; norm_num [k0, T0, Finset.sum_range_succ]) 0

/-- C4: two-state aliasing at configuration — if the velocity field has only
two time states then the kernel's n−1 velocity handle is its n velocity
handle, and independently likewise for density; consequently the n−1
interpolation result equals the n interpolation result at every integration
point for that field. -/
theorem C4_two_state_aliasing {α : Type} (velocity density : FieldStates α)
    (gjp coords : α) (lumpedMass : Bool) (ipNodeMap : ℕ → ℕ)
    (shiftedShapeFcn shapeFcn : ℕ → ℕ → ℚ) (sv : ScratchViews α) (n : ℕ)
    (k : MomentumMassElemKernel α)
    (hk : k = MomentumMassElemKernel.construct velocity density gjp coords
      lumpedMass ipNodeMap shiftedShapeFcn shapeFcn) :
    (velocity.numberOfStates = 2 →
      k.velocityNm1_ = k.velocityN_ ∧
      ∀ ip j, gatherInterp k.v_shape_function_ n ip
          (fun ic => sv.get_scratch_view_2D k.velocityNm1_ ic j)
        = gatherInterp k.v_shape_function_ n ip
            (fun ic => sv.get_scratch_view_2D k.velocityN_ ic j))
    ∧ (density.numberOfStates = 2 →
      k.densityNm1_ = k.densityN_ ∧
      ∀ ip, gatherInterp k.v_shape_function_ n ip
          (sv.get_scratch_view_1D k.densityNm1_)
        = gatherInterp k.v_shape_function_ n ip
            (sv.get_scratch_view_1D k.densityN_)) := by
  subst hk
  constructor
  · intro h
    have he : (MomentumMassElemKernel.construct velocity density gjp coords
          lumpedMass ipNodeMap shiftedShapeFcn shapeFcn).velocityNm1_
        = (MomentumMassElemKernel.construct velocity density gjp coords
          lumpedMass ipNodeMap shiftedShapeFcn shapeFcn).velocityN_ := by
      simp [MomentumMassElemKernel.construct, h]
    exact ⟨he, fun ip j => by rw [he]⟩
  · intro h
    have he : (MomentumMassElemKernel.construct velocity density gjp coords
          lumpedMass ipNodeMap shiftedShapeFcn shapeFcn).densityNm1_
        = (MomentumMassElemKernel.construct velocity density gjp coords
          lumpedMass ipNodeMap shiftedShapeFcn shapeFcn).densityN_ := by
      simp [MomentumMassElemKernel.construct, h]
    exact ⟨he, fun ip => by rw [he]⟩

/-- A two-state velocity field used by the C4 witness. -/
def vel2 : FieldStates ℕ :=
  { numberOfStates := 2, stateNM1 := 10, stateN := 11, stateNP1 := 12 }

/-- A two-state density field used by the C4 witness. -/
def den2 : FieldStates ℕ :=
  { numberOfStates := 2, stateNM1 := 20, stateN := 21, stateNP1 := 22 }

/-- Kernel configured from two-state fields, used by the C4 witness. -/
def k4 : MomentumMassElemKernel ℕ :=
  MomentumMassElemKernel.construct vel2 den2 6 7 false (fun ip => ip)
    (fun _ _ => 1/2) (fun _ _ => 1/2)

/-- C4 witness: for concretely constructed two-state fields, the n−1 handles
alias the n handles and a concrete interpolation agrees. -/
theorem C4_two_state_aliasing_witness :
    (k4.velocityNm1_ = k4.velocityN_
      ∧ gatherInterp k4.v_shape_function_ 2 0
            (fun ic => sv0.get_scratch_view_2D k4.velocityNm1_ ic 0)
          = gatherInterp k4.v_shape_function_ 2 0
              (fun ic => sv0.get_scratch_view_2D k4.velocityN_ ic 0))
    ∧ (k4.densityNm1_ = k4.densityN_
      ∧ gatherInterp k4.v_shape_function_ 2 0
            (sv0.get_scratch_view_1D k4.densityNm1_)
          = gatherInterp k4.v_shape_function_ 2 0
              (sv0.get_scratch_view_1D k4.densityN_)) := by
  have h := C4_two_state_aliasing vel2 den2 6 7 false (fun ip => ip)
    (fun _ _ => 1/2) (fun _ _ => 1/2) sv0 2 k4 rfl
  exact ⟨⟨(h.1 rfl).1, (h.1 rfl).2 0 0⟩, ⟨(h.2 rfl).1, (h.2 rfl).2 0⟩⟩

/-- C5: when γ3 = 0, two scratch contexts that differ only in the gathered
n−1 density and n−1 velocity nodal values produce identical residual and
Jacobian contributions. -/
theorem C5_gamma3_zero {α : Type} (T : AlgTraits)
    (k : MomentumMassElemKernel α) (sv sv2 : ScratchViews α) (B : ElemBuffers)
    (hg3 : k.gamma3_ = 0)
    (hdN : sv.get_scratch_view_1D k.densityN_ = sv2.get_scratch_view_1D k.densityN_)
    (hdNp1 : sv.get_scratch_view_1D k.densityNp1_ = sv2.get_scratch_view_1D k.densityNp1_)
    (hvN : sv.get_scratch_view_2D k.velocityN_ = sv2.get_scratch_view_2D k.velocityN_)
    (hvNp1 : sv.get_scratch_view_2D k.velocityNp1_ = sv2.get_scratch_view_2D k.velocityNp1_)
    (hG : sv.get_scratch_view_2D k.Gjp_ = sv2.get_scratch_view_2D k.Gjp_)
    (hscv : sv.scv_volume = sv2.scv_volume) :
    MomentumMassElemKernel.execute T k sv B
      = MomentumMassElemKernel.execute T k sv2 B := by
  ext i c
  · rw [execute_lhs_apply, execute_lhs_apply]
    congr 1
    refine Finset.sum_congr rfl fun ip _ => ?_
    simp only [specLhsDelta, specLhsFac, specInterp1, hdNp1, hscv]
  · rw [execute_rhs_apply, execute_rhs_apply]
    congr 1
    refine Finset.sum_congr rfl fun ip _ => ?_
    simp only [specRhsDelta, specMassTerm, specInterp1, specInterp2, hg3,
      zero_mul, add_zero, hdN, hdNp1, hvN, hvNp1, hG, hscv]

/-- Kernel with γ3 = 0, used by the C5 witness. -/
def k5 : MomentumMassElemKernel ℕ := { k0 with gamma3_ := 0 }

/-- Scratch context equal to `sv0` except at the n−1 density handle (3) and
the n−1 velocity handle (0) of `k5`, used by the C5 witness. -/
def sv5 : ScratchViews ℕ :=
  { get_scratch_view_1D := fun f ic => if f = 3 then 99 else (f : ℚ) + ic
    get_scratch_view_2D := fun f ic j => if f = 0 then 77 else (f : ℚ) + ic + j
    scv_volume := fun ip => (ip : ℚ) + 1 }

/-- C5 witness: with γ3 = 0, changing only the n−1 gathered values leaves
the evaluation unchanged. -/
theorem C5_gamma3_zero_witness :
    MomentumMassElemKernel.execute T0 k5 sv0 B0
      = MomentumMassElemKernel.execute T0 k5 sv5 B0 :=
  C5_gamma3_zero T0 k5 sv0 sv5 B0 rfl
    (by funext ic; simp [sv0, sv5, k5, k0])
    (by funext ic; simp [sv0, sv5, k5, k0])
    (by funext ic j; simp [sv0, sv5, k5, k0])
    (by funext ic j; simp [sv0, sv5, k5, k0])
    (by funext ic j; simp [sv0, sv5, k5, k0])
    rfl

/-- C8: `setup` copies exactly the step size and γ1, γ2, γ3 out of the time
integrator, modifies nothing else of the kernel state, and calling it again
while the integrator reports the same four values leaves the state
unchanged. -/
theorem C8_setup_copies {α : Type} (k : MomentumMassElemKernel α)
    (ti ti2 : TimeIntegrator)
    (h1 : ti2.get_time_step = ti.get_time_step)
    (h2 : ti2.get_gamma1 = ti.get_gamma1)
    (h3 : ti2.get_gamma2 = ti.get_gamma2)
    (h4 : ti2.get_gamma3 = ti.get_gamma3) :
    (k.setup ti).dt_ = ti.get_time_step
    ∧ (k.setup ti).gamma1_ = ti.get_gamma1
    ∧ (k.setup ti).gamma2_ = ti.get_gamma2
    ∧ (k.setup ti).gamma3_ = ti.get_gamma3
    ∧ (k.setup ti).lumpedMass_ = k.lumpedMass_
    ∧ (k.setup ti).ipNodeMap_ = k.ipNodeMap_
    ∧ (k.setup ti).v_shape_function_ = k.v_shape_function_
    ∧ (k.setup ti).velocityNm1_ = k.velocityNm1_
    ∧ (k.setup ti).velocityN_ = k.velocityN_
    ∧ (k.setup ti).velocityNp1_ = k.velocityNp1_
    ∧ (k.setup ti).densityNm1_ = k.densityNm1_
    ∧ (k.setup ti).densityN_ = k.densityN_
    ∧ (k.setup ti).densityNp1_ = k.densityNp1_
    ∧ (k.setup ti).Gjp_ = k.Gjp_
    ∧ (k.setup ti).coordinates_ = k.coordinates_
    ∧ (k.setup ti).setup ti2 = k.setup ti := by
  refine ⟨rfl, rfl, rfl, rfl, rfl, rfl, rfl, rfl, rfl, rfl, rfl, rfl, rfl,
    rfl, rfl, ?_⟩
  simp only [MomentumMassElemKernel.setup, h1, h2, h3, h4]

/-- Time integrator used by the C8 witness. -/
def ti0 : TimeIntegrator :=
  { timeStep := 1/10, gamma1 := 1, gamma2 := 1/2, gamma3 := 1/3 }

/-- C8 witness: the setup contract at a concrete kernel and integrator. -/
theorem C8_setup_copies_witness :
    (k0.setup ti0).dt_ = ti0.get_time_step
    ∧ (k0.setup ti0).gamma1_ = ti0.get_gamma1
    ∧ (k0.setup ti0).gamma2_ = ti0.get_gamma2
    ∧ (k0.setup ti0).gamma3_ = ti0.get_gamma3
    ∧ (k0.setup ti0).lumpedMass_ = k0.lumpedMass_
    ∧ (k0.setup ti0).ipNodeMap_ = k0.ipNodeMap_
    ∧ (k0.setup ti0).v_shape_function_ = k0.v_shape_function_
    ∧ (k0.setup ti0).velocityNm1_ = k0.velocityNm1_
    ∧ (k0.setup ti0).velocityN_ = k0.velocityN_
    ∧ (k0.setup ti0).velocityNp1_ = k0.velocityNp1_
    ∧ (k0.setup ti0).densityNm1_ = k0.densityNm1_
    ∧ (k0.setup ti0).densityN_ = k0.densityN_
    ∧ (k0.setup ti0).densityNp1_ = k0.densityNp1_
    ∧ (k0.setup ti0).Gjp_ = k0.Gjp_
    ∧ (k0.setup ti0).coordinates_ = k0.coordinates_
    ∧ (k0.setup ti0).setup ti0 = k0.setup ti0 :=
  C8_setup_copies k0 ti0 ti0 rfl rfl rfl rfl

/-- C9: implicit — the contributions of `execute` are independent of the
coordinate field's gathered values: two scratch contexts identical except at
the coordinate handle (which differs from every handle the evaluator reads)
produce identical results; geometry enters only through the externally
supplied sub-control-volume measures. -/
theorem C9_coordinates_independence {α : Type} (T : AlgTraits)
    (k : MomentumMassElemKernel α) (sv sv2 : ScratchViews α) (B : ElemBuffers)
    (h1D : sv.get_scratch_view_1D = sv2.get_scratch_view_1D)
    (hscv : sv.scv_volume = sv2.scv_volume)
    (h2D : ∀ f, f ≠ k.coordinates_ →
      sv.get_scratch_view_2D f = sv2.get_scratch_view_2D f)
    (hc1 : k.velocityNm1_ ≠ k.coordinates_)
    (hc2 : k.velocityN_ ≠ k.coordinates_)
    (hc3 : k.velocityNp1_ ≠ k.coordinates_)
    (hc4 : k.Gjp_ ≠ k.coordinates_) :
    MomentumMassElemKernel.execute T k sv B
      = MomentumMassElemKernel.execute T k sv2 B := by
  have hv1 := h2D _ hc1
  have hv2 := h2D _ hc2
  have hv3 := h2D _ hc3
  have hg := h2D _ hc4
  ext i c
  · rw [execute_lhs_apply, execute_lhs_apply]
    congr 1
    refine Finset.sum_congr rfl fun ip _ => ?_
    simp only [specLhsDelta, specLhsFac, specInterp1, h1D, hscv]
  · rw [execute_rhs_apply, execute_rhs_apply]
    congr 1
    refine Finset.sum_congr rfl fun ip _ => ?_
    simp only [specRhsDelta, specMassTerm, specInterp1, specInterp2, h1D,
      hv1, hv2, hv3, hg, hscv]

/-- Scratch context equal to `sv0` except at the coordinate handle (7) of
`k0`, used by the C9 witness. -/
def sv9 : ScratchViews ℕ :=
  { get_scratch_view_1D := fun f ic => (f : ℚ) + ic
    get_scratch_view_2D := fun f ic j => if f = 7 then 1234 else (f : ℚ) + ic + j
    scv_volume := fun ip => (ip : ℚ) + 1 }

/-- C9 witness: changing only the gathered coordinate values leaves a
concrete evaluation unchanged. -/
theorem C9_coordinates_independence_witness :
    MomentumMassElemKernel.execute T0 k0 sv0 B0
      = MomentumMassElemKernel.execute T0 k0 sv9 B0 :=
  C9_coordinates_independence T0 k0 sv0 sv9 B0 rfl rfl
    (fun f hf => by funext ic j; exact (if_neg hf).symm)
    (by decide) (by decide) (by decide) (by decide)

/-- C10: implicit frame property — `execute` changes a residual entry or a
Jacobian row of node `n` only if `n` owns at least one integration point;
every entry of a node that owns no integration point is left unchanged. -/
theorem C10_frame {α : Type} (T : AlgTraits) (k : MomentumMassElemKernel α)
    (sv : ScratchViews α) (B : ElemBuffers) (n j : ℕ)
    (hn : ∀ ip < T.numScvIp_, k.ipNodeMap_ ip ≠ n) (hj : j < T.nDim_) :
    (MomentumMassElemKernel.execute T k sv B).rhs (n * T.nDim_ + j)
        = B.rhs (n * T.nDim_ + j)
    ∧ ∀ c, (MomentumMassElemKernel.execute T k sv B).lhs (n * T.nDim_ + j) c
        = B.lhs (n * T.nDim_ + j) c := by
  have hd : 0 < T.nDim_ := lt_of_le_of_lt (Nat.zero_le j) hj
  have key : ∀ ip < T.numScvIp_, ∀ j2 < T.nDim_,
      k.ipNodeMap_ ip * T.nDim_ + j2 ≠ n * T.nDim_ + j := by
    intro ip hip j2 hj2 he
    have hmod1 : (k.ipNodeMap_ ip * T.nDim_ + j2) % T.nDim_ = j2 := by
      rw [Nat.mul_comm, Nat.mul_add_mod, Nat.mod_eq_of_lt hj2]
    have hmod2 : (n * T.nDim_ + j) % T.nDim_ = j := by
      rw [Nat.mul_comm, Nat.mul_add_mod, Nat.mod_eq_of_lt hj]
    have hm : j2 = j := by rw [← hmod1, ← hmod2, he]
    subst hm
    have h2 : k.ipNodeMap_ ip * T.nDim_ = n * T.nDim_ := Nat.add_right_cancel he
    exact hn ip hip (Nat.eq_of_mul_eq_mul_right hd h2)
  constructor
  · rw [execute_rhs_apply]
    have hz : ∑ ip ∈ Finset.range T.numScvIp_,
        specRhsDelta T k sv ip (n * T.nDim_ + j) = 0 := by
      refine Finset.sum_eq_zero fun ip hip => ?_
      simp only [specRhsDelta]
      exact Finset.sum_eq_zero fun j2 hj2 =>
        if_neg (key ip (Finset.mem_range.mp hip) j2 (Finset.mem_range.mp hj2))
    rw [hz, sub_zero]
  · intro c
    rw [execute_lhs_apply]
    have hz : ∑ ip ∈ Finset.range T.numScvIp_,
        specLhsDelta T k sv ip (n * T.nDim_ + j) c = 0 := by
      refine Finset.sum_eq_zero fun ip hip => ?_
      simp only [specLhsDelta]
      refine Finset.sum_eq_zero fun ic _ => Finset.sum_eq_zero fun j2 hj2 => ?_
      exact if_neg fun hcc =>
        key ip (Finset.mem_range.mp hip) j2 (Finset.mem_range.mp hj2) hcc.1
    rw [hz, add_zero]

/-- Topology with one integration point over two nodes, so node 1 owns no
integration point; used by the C10 witness. -/
def T10 : AlgTraits := { nDim_ := 2, nodesPerElement_ := 2, numScvIp_ := 1 }

/-- C10 witness: node 1 owns no integration point of `T10`, and its residual
entry and a Jacobian entry of its row are unchanged. -/
theorem C10_frame_witness :
    ((MomentumMassElemKernel.execute T10 k0 sv0 B0).rhs (1 * T10.nDim_ + 1)
        = B0.rhs (1 * T10.nDim_ + 1))
    ∧ ((MomentumMassElemKernel.execute T10 k0 sv0 B0).lhs (1 * T10.nDim_ + 1) 5
        = B0.lhs (1 * T10.nDim_ + 1) 5) := by
  have h := C10_frame T10 k0 sv0 B0 1 1 (by decide) (by decide)
  exact ⟨h.1, h.2 5⟩

end nalu
end sierra
